import Mathlib

/-!
Shallow embedding of `src/data/process_data.py` (disaster-response ETL
pipeline): `load_data` (CSV parse + inner merge on `id`), `clean_data`
(category expansion, in-place drop of the `categories` column,
duplicate-percentage computation, de-duplication) and `save_data`
(sqlite write of a table named `messages` with `index=False` and the
default `if_exists='fail'` policy).

Tables are modelled as a column-name list plus a list of rows of cell
values; a cell is a string or an integer (the only cell types the
pipeline produces from CSV input).  Fallible steps return `Except`
with an error kind mirroring the Python exception class that the
corresponding pandas operation raises.  `clean_data` returns the final
state of the caller's table (mutated by the in-place `drop`) together
with the result, making the frame effect explicit.
-/

/-- A cell value of a table: CSV parsing and the pipeline only produce
strings and integers. -/
inductive Value where
  | str : String → Value
  | int : Int → Value
deriving DecidableEq

/-- A data frame: column names plus rows of cells (positionally aligned
with the column list). -/
structure Table where
  cols : List String
  rows : List (List Value)
deriving DecidableEq

/-- Exception classes raised by the pandas operations that `clean_data`
uses: missing-attribute (`.categories` access on a frame without that
column, or a string method on a NaN fill value), positional index out of
bounds (`iloc[0]` on an empty frame, `split('-')[1]` on a dash-free
value), failed integer conversion (`astype(int)`), and division by zero
(the duplicate-percentage computation). -/
inductive CleanError where
  | attributeError
  | indexError
  | valueError
  | zeroDivision
deriving DecidableEq

/-- Error raised by `DataFrame.to_sql` under the default
`if_exists='fail'` policy when the target table already exists. -/
inductive SaveError where
  | tableExists
deriving DecidableEq

/-- Split a character list at every occurrence of `sep`, `acc` holding
the (reversed) characters of the current piece: the recursion behind
Python's `str.split` with a one-character separator. -/
def splitChars (sep : Char) (acc : List Char) : List Char → List (List Char)
  | [] => [acc.reverse]
  | c :: cs =>
      if c = sep then acc.reverse :: splitChars sep [] cs
      else splitChars sep (c :: acc) cs

/-- Python's `str.split(sep)` for a one-character separator: split at
every occurrence, never collapsing, so `""` gives `[""]` and adjacent
separators give empty pieces. -/
def splitStr (sep : Char) (s : String) : List String :=
  (splitChars sep [] s.toList).map List.asString

/-- Strip leading and trailing whitespace (Python's `int` accepts it). -/
def trimChars (cs : List Char) : List Char :=
  ((cs.dropWhile Char.isWhitespace).reverse.dropWhile Char.isWhitespace).reverse

/-- Digits-only parse of a natural number (`none` unless the character
list is nonempty and all decimal digits). -/
def parseDigits (cs : List Char) : Option Nat :=
  if cs ≠ [] ∧ cs.all Char.isDigit then
    some (cs.foldl (fun n c => 10 * n + (c.toNat - 48)) 0)
  else none

/-- Python's `int(str)` as used by `astype(int)` on string cells:
surrounding whitespace stripped, optional sign, then decimal digits. -/
def parseInt (s : String) : Option Int :=
  match trimChars s.toList with
  | '-' :: rest => (parseDigits rest).map (fun n => -(n : Int))
  | '+' :: rest => (parseDigits rest).map (fun n => (n : Int))
  | cs => (parseDigits cs).map (fun n => (n : Int))

/-- Index of the first occurrence of a column name in a header list. -/
def colIndexAux (c : String) : List String → Option Nat
  | [] => none
  | x :: xs => if x = c then some 0 else (colIndexAux c xs).map (· + 1)

/-- Index of a named column in a table (first occurrence). -/
def colIndex (t : Table) (c : String) : Option Nat :=
  colIndexAux c t.cols

/-- The column of join-key cells at position `i` of each row (`none`
for rows too short to have one). -/
def idsOf (t : Table) (i : Nat) : List (Option Value) :=
  t.rows.map (fun r => r[i]?)

/-- Concatenation of the per-left-row match lists: the row block of a
left-outer nested-loop inner join. -/
def joinRows (f : List Value → List (List Value)) : List (List Value) → List (List Value)
  | [] => []
  | lr :: ls => f lr ++ joinRows f ls

/-- `messages_df.merge(categories_df, on=['id'])`: pandas inner merge on
the `id` column.  Result columns are the left columns followed by the
right columns minus the key, with a non-key name occurring in both
inputs suffixed `_x` (left) / `_y` (right); result rows pair each left
row, in order, with every key-matching right row, in order.  `none` when
either input lacks an `id` column (pandas raises `KeyError`). -/
def mergeOn (l r : Table) : Option Table :=
  match colIndex l "id", colIndex r "id" with
  | some li, some ri =>
      some
        { cols :=
            l.cols.map (fun c => if c ≠ "id" ∧ c ∈ r.cols then c ++ "_x" else c) ++
            (r.cols.eraseIdx ri).map (fun c => if c ≠ "id" ∧ c ∈ l.cols then c ++ "_y" else c),
          rows :=
            joinRows
              (fun lr =>
                (r.rows.filter (fun rr => decide (rr[ri]? = lr[li]?))).map
                  (fun rr => lr ++ rr.eraseIdx ri))
              l.rows }
  | _, _ => none

/-- `load_data(messages_filepath, categories_filepath)`, stated over the
two tables that `pd.read_csv` parses the files into: the inner merge on
`id`. -/
def load_data (messages categories : Table) : Option Table :=
  mergeOn messages categories

/-- Sequence a fallible cell operation over a list, stopping at the
first error (the traversal order pandas errors follow on the tiny frames
considered here does not affect any stated property, which only depend
on whether some cell fails). -/
def mapExcept (f : α → Except CleanError β) : List α → Except CleanError (List β)
  | [] => .ok []
  | a :: as =>
      match f a with
      | .error e => .error e
      | .ok b =>
          match mapExcept f as with
          | .error e => .error e
          | .ok bs => .ok (b :: bs)

/-- The `categories` cell of one row split on `;` (the `.str` accessor
requires a string cell). -/
def segCell (i : Nat) (row : List Value) : Except CleanError (List String) :=
  match row[i]? with
  | some (Value.str s) => .ok (splitStr ';' s)
  | _ => .error .attributeError

/-- Step 1 of `clean_data`: `data_df.categories.str.split(';', expand=True)`
without the padding — each row's `categories` string split on `;`.
Errors if the `categories` column is missing or a cell is not a
string. -/
def segLists (t : Table) (i : Nat) : Except CleanError (List (List String)) :=
  mapExcept (segCell i) t.rows

/-- Width of the expanded frame: `expand=True` gives one column per
segment of the longest row, shorter rows padded with NaN. -/
def maxLen (ls : List (List String)) : Nat :=
  ls.foldr (fun l n => max l.length n) 0

/-- Pad a segment list to the expanded frame's width with NaN (`none`). -/
def padTo (n : Nat) (l : List String) : List (Option String) :=
  l.map some ++ List.replicate (n - l.length) none

/-- Naming step applied to a first-row cell:
`column.split('-')[0]` (a NaN cell raises `AttributeError`). -/
def nameOfCell : Option String → Except CleanError String
  | none => .error .attributeError
  | some s => .ok ((splitStr '-' s).headD "")

/-- Value step applied to a cell: `row.split('-')[1]` (a NaN cell raises
`AttributeError`, a dash-free value `IndexError`). -/
def splitCell : Option String → Except CleanError String
  | none => .error .attributeError
  | some s =>
      match (splitStr '-' s)[1]? with
      | none => .error .indexError
      | some p => .ok p

/-- `astype(int)` applied to a cell: integer parse or `ValueError`. -/
def intCell (p : String) : Except CleanError Int :=
  match parseInt p with
  | none => .error .valueError
  | some n => .ok n

/-- Lines 34–40 of `process_data.py`: split the `categories` column on
`;` into an expanded frame, name its columns from the first row's
prefixes, convert every cell to the integer after the first `-`, then
drop `categories` and concatenate the integer columns positionally.
Returns the concatenated (not yet de-duplicated) table. -/
def cleanTransform (t : Table) : Except CleanError Table :=
  match colIndex t "categories" with
  | none => .error .attributeError
  | some i =>
      match segLists t i with
      | .error e => .error e
      | .ok segs =>
          match (segs.map (padTo (maxLen segs))).head? with
          | none => .error .indexError
          | some row0 =>
              match mapExcept nameOfCell row0 with
              | .error e => .error e
              | .ok names =>
                  match mapExcept (mapExcept splitCell) (segs.map (padTo (maxLen segs))) with
                  | .error e => .error e
                  | .ok strRows =>
                      match mapExcept (mapExcept intCell) strRows with
                      | .error e => .error e
                      | .ok intRows =>
                          .ok
                            { cols := t.cols.eraseIdx i ++ names,
                              rows :=
                                List.zipWith
                                  (fun r ir => r.eraseIdx i ++ ir.map Value.int)
                                  t.rows intRows }

/-- The integer a category segment contributes on a successful run:
`int(seg.split('-')[1])` — the second `-`-separated piece of the
segment, converted to an integer (defaults are irrelevant: on a
successful run the index and the parse are both defined). -/
def segIntFn (seg : String) : Int :=
  (parseInt ((splitStr '-' seg)[1]?.getD "")).getD 0

/-- What one input row becomes, value-wise, on a successful run of the
expansion: the `;`-segments of its `categories` string, each mapped
through `segIntFn`. -/
def rowVals (i : Nat) (r : List Value) : List Int :=
  match r[i]? with
  | some (Value.str s) => (splitStr ';' s).map segIntFn
  | _ => []

/-- What one input row becomes on a successful run of lines 34–40: the
row minus its `categories` cell, followed by the integer category
cells. -/
def rowTrans (i : Nat) (r : List Value) : List Value :=
  r.eraseIdx i ++ (rowVals i r).map Value.int

/-- A category segment on which the value step cannot fail: it has a
second `-`-separated piece and that piece parses as an integer. -/
def goodSeg (seg : String) : Prop :=
  ∃ p, (splitStr '-' seg)[1]? = some p ∧ (parseInt p).isSome

/-- The in-place `data_df.drop(columns=['categories'], inplace=True)`:
the caller's table minus its `categories` column. -/
def dropCategories (t : Table) : Table :=
  match colIndex t "categories" with
  | none => t
  | some i => { cols := t.cols.eraseIdx i, rows := t.rows.map (fun r => r.eraseIdx i) }

/-- Rows that exactly match an earlier row (`data_df.duplicated()`
count), with `seen` the rows already passed. -/
def countDupsAux [DecidableEq α] (seen : List α) : List α → Nat
  | [] => 0
  | a :: as => (if a ∈ seen then 1 else 0) + countDupsAux (a :: seen) as

/-- Number of rows exactly matching an earlier row. -/
def countDups [DecidableEq α] (l : List α) : Nat :=
  countDupsAux [] l

/-- `drop_duplicates(keep='first')` with `seen` the rows already kept:
drop every element equal to an earlier one. -/
def dedupFirstAux [DecidableEq α] (seen : List α) : List α → List α
  | [] => []
  | a :: as =>
      if a ∈ seen then dedupFirstAux (a :: seen) as
      else a :: dedupFirstAux (a :: seen) as

/-- `drop_duplicates(keep='first')`: keep the first occurrence of each
row, preserving order. -/
def dedupFirst [DecidableEq α] (l : List α) : List α :=
  dedupFirstAux [] l

/-- `clean_data(data_df)`.  First component: the final state of the
caller's table (the line-39 `drop` is in place, so on any path that
reaches it the caller's object loses its `categories` column; earlier
errors leave it untouched).  Second component: the returned cleaned
table, or the raised error.  The duplicate-percentage computation at
line 44 divides `num_duplicated` by `num_all_messages` and raises
`ZeroDivisionError` when the frame has zero rows. -/
def clean_data (t : Table) : Table × Except CleanError Table :=
  match cleanTransform t with
  | .error e => (t, .error e)
  | .ok u =>
      if u.rows.length = 0 then (dropCategories t, .error .zeroDivision)
      else (dropCategories t, .ok { cols := u.cols, rows := dedupFirst u.rows })

/-- `pathlib.Path.name`: the final component of a path. -/
def pathName (p : String) : String :=
  (splitStr '/' p).getLastD p

/-- A sqlite database file: named tables. -/
abbrev Store := List (String × Table)

/-- The file system: database files by path (sqlite creates a missing
file, modelled by `lookupStore` returning the empty store). -/
abbrev FileSys := List (String × Store)

deriving instance DecidableEq for Except

/-- The store backing a path (a fresh empty store if the file does not
exist yet: sqlite's create-if-absent behaviour). -/
def lookupStore (fs : FileSys) (p : String) : Store :=
  ((fs.find? (fun e => e.1 = p)).map Prod.snd).getD []

/-- Write back the store at a path. -/
def setStore (fs : FileSys) (p : String) (s : Store) : FileSys :=
  (p, s) :: fs.filter (fun e => ¬ e.1 = p)

/-- A table with the positional row index prepended as a column, which
`to_sql` would write when `index=True`. -/
def withIndex (df : Table) : Table :=
  { cols := "index" :: df.cols,
    rows := (List.range df.rows.length).zipWith (fun i r => Value.int i :: r) df.rows }

/-- `df.to_sql(name, engine, index=...)` with the default
`if_exists='fail'`: error if the named table exists, otherwise add it
(with an index column exactly when `index` is true). -/
def toSql (name : String) (df : Table) (index : Bool) (s : Store) : Except SaveError Store :=
  if s.any (fun e => e.1 = name) then .error .tableExists
  else .ok (s ++ [(name, if index then withIndex df else df)])

/-- `save_data(df, database_filename)`: builds the engine URL from
`database_filename.name` — only the final path component, so the store
file is resolved in the current working directory — and writes the
table under the name `messages` with `index=False`. -/
def save_data (df : Table) (databaseFilename : String) (fs : FileSys) :
    Except SaveError FileSys :=
  match toSql "messages" df false (lookupStore fs (pathName databaseFilename)) with
  | .error e => .error e
  | .ok s => .ok (setStore fs (pathName databaseFilename) s)

/-! ### Helper lemmas on the combinators of the embedding -/

theorem mapExcept_length {α β : Type} {f : α → Except CleanError β} :
    ∀ {l : List α} {bs : List β}, mapExcept f l = Except.ok bs → bs.length = l.length := by
  intro l
  induction l with
  | nil => intro bs h; simp only [mapExcept, Except.ok.injEq] at h; subst h; rfl
  | cons a as ih =>
      intro bs h
      simp only [mapExcept] at h
      cases hfa : f a with
      | error e => rw [hfa] at h; cases h
      | ok b =>
          rw [hfa] at h
          cases hrec : mapExcept f as with
          | error e => rw [hrec] at h; cases h
          | ok bs' =>
              rw [hrec] at h
              cases h
              simp [ih hrec]

theorem mapExcept_get {α β : Type} {f : α → Except CleanError β} :
    ∀ {l : List α} {bs : List β}, mapExcept f l = Except.ok bs →
      ∀ (j : Nat) (a : α), l[j]? = some a → ∃ b, f a = Except.ok b ∧ bs[j]? = some b := by
  intro l
  induction l with
  | nil => intro bs _ j a ha; simp at ha
  | cons x xs ih =>
      intro bs h j a ha
      simp only [mapExcept] at h
      cases hfa : f x with
      | error e => rw [hfa] at h; cases h
      | ok b =>
          rw [hfa] at h
          cases hrec : mapExcept f xs with
          | error e => rw [hrec] at h; cases h
          | ok bs' =>
              rw [hrec] at h
              cases h
              cases j with
              | zero => simp at ha; subst ha; exact ⟨b, hfa, by simp⟩
              | succ j' =>
                  simp only [List.getElem?_cons_succ] at ha ⊢
                  exact ih hrec j' a ha

theorem mapExcept_mem_ok {α β : Type} {f : α → Except CleanError β} :
    ∀ {l : List α} {bs : List β}, mapExcept f l = Except.ok bs →
      ∀ a ∈ l, ∃ b, f a = Except.ok b := by
  intro l
  induction l with
  | nil => intro bs _ a ha; simp at ha
  | cons x xs ih =>
      intro bs h a ha
      simp only [mapExcept] at h
      cases hfa : f x with
      | error e => rw [hfa] at h; cases h
      | ok b =>
          rw [hfa] at h
          cases hrec : mapExcept f xs with
          | error e => rw [hrec] at h; cases h
          | ok bs' =>
              rcases List.mem_cons.mp ha with rfl | hmem
              · exact ⟨b, hfa⟩
              · exact ih hrec a hmem

theorem mapExcept_ok_of_forall {α β : Type} {f : α → Except CleanError β} :
    ∀ {l : List α}, (∀ a ∈ l, ∃ b, f a = Except.ok b) →
      ∃ bs, mapExcept f l = Except.ok bs := by
  intro l
  induction l with
  | nil => intro _; exact ⟨[], rfl⟩
  | cons x xs ih =>
      intro h
      obtain ⟨b, hb⟩ := h x (List.mem_cons_self x xs)
      obtain ⟨bs, hbs⟩ := ih (fun a ha => h a (List.mem_cons_of_mem x ha))
      exact ⟨b :: bs, by simp only [mapExcept, hb, hbs]⟩

theorem mapExcept_append_ok {α β : Type} {f : α → Except CleanError β} :
    ∀ {l₁ l₂ : List α} {bs : List β}, mapExcept f (l₁ ++ l₂) = Except.ok bs →
      ∃ b₁ b₂, mapExcept f l₁ = Except.ok b₁ ∧ mapExcept f l₂ = Except.ok b₂ ∧ bs = b₁ ++ b₂ := by
  intro l₁
  induction l₁ with
  | nil => intro l₂ bs h; exact ⟨[], bs, rfl, h, rfl⟩
  | cons x xs ih =>
      intro l₂ bs h
      simp only [List.cons_append, mapExcept, List.append_eq] at h
      cases hfa : f x with
      | error e => rw [hfa] at h; cases h
      | ok b =>
          rw [hfa] at h
          cases hrec : mapExcept f (xs ++ l₂) with
          | error e => rw [hrec] at h; cases h
          | ok bs' =>
              rw [hrec] at h
              cases h
              obtain ⟨b₁, b₂, h₁, h₂, rfl⟩ := ih hrec
              exact ⟨b :: b₁, b₂, by simp [mapExcept, hfa, h₁], h₂, rfl⟩

theorem mapExcept_map_some {α β : Type} (f : Option α → Except CleanError β) (g : α → β)
    (hfg : ∀ a, f (some a) = Except.ok (g a)) :
    ∀ (l : List α), mapExcept f (l.map some) = Except.ok (l.map g) := by
  intro l
  induction l with
  | nil => rfl
  | cons x xs ih => simp only [List.map_cons, mapExcept, hfg x, ih]

/-! ### De-duplication lemmas -/

theorem dedupFirstAux_length {α : Type} [DecidableEq α] :
    ∀ (l seen : List α), (dedupFirstAux seen l).length + countDupsAux seen l = l.length := by
  intro l
  induction l with
  | nil => intro seen; rfl
  | cons a as ih =>
      intro seen
      by_cases h : a ∈ seen
      · simp only [dedupFirstAux, countDupsAux, if_pos h, List.length_cons]
        have := ih (a :: seen)
        omega
      · simp only [dedupFirstAux, countDupsAux, if_neg h, List.length_cons]
        have := ih (a :: seen)
        omega

theorem dedupFirstAux_sublist {α : Type} [DecidableEq α] :
    ∀ (l seen : List α), (dedupFirstAux seen l).Sublist l := by
  intro l
  induction l with
  | nil => intro seen; exact List.Sublist.refl []
  | cons a as ih =>
      intro seen
      by_cases h : a ∈ seen
      · simp only [dedupFirstAux, if_pos h]
        exact (ih (a :: seen)).cons a
      · simp only [dedupFirstAux, if_neg h]
        exact (ih (a :: seen)).cons₂ a

theorem mem_dedupFirstAux {α : Type} [DecidableEq α] :
    ∀ (l seen : List α) (a : α), a ∈ dedupFirstAux seen l ↔ a ∈ l ∧ a ∉ seen := by
  intro l
  induction l with
  | nil => intro seen a; simp [dedupFirstAux]
  | cons x xs ih =>
      intro seen a
      by_cases h : x ∈ seen
      · rw [show dedupFirstAux seen (x :: xs) = dedupFirstAux (x :: seen) xs from if_pos h,
            ih (x :: seen) a]
        constructor
        · rintro ⟨hm, hns⟩
          exact ⟨List.mem_cons_of_mem x hm, fun hs => hns (List.mem_cons_of_mem x hs)⟩
        · rintro ⟨hm, hns⟩
          rcases List.mem_cons.mp hm with rfl | hm'
          · exact absurd h hns
          · refine ⟨hm', fun hs => ?_⟩
            rcases List.mem_cons.mp hs with rfl | hs'
            · exact hns h
            · exact hns hs'
      · rw [show dedupFirstAux seen (x :: xs) = x :: dedupFirstAux (x :: seen) xs from if_neg h]
        constructor
        · intro hmem
          rcases List.mem_cons.mp hmem with rfl | hrec
          · exact ⟨List.mem_cons_self a xs, h⟩
          · obtain ⟨hm, hns⟩ := (ih (x :: seen) a).mp hrec
            exact ⟨List.mem_cons_of_mem x hm, fun hs => hns (List.mem_cons_of_mem x hs)⟩
        · rintro ⟨hm, hns⟩
          rcases List.mem_cons.mp hm with rfl | hm'
          · exact List.mem_cons_self a _
          · by_cases hax : a = x
            · subst hax; exact List.mem_cons_self a _
            · refine List.mem_cons_of_mem x ((ih (x :: seen) a).mpr ⟨hm', fun hs => ?_⟩)
              rcases List.mem_cons.mp hs with h1 | h1
              · exact hax h1
              · exact hns h1

theorem nodup_dedupFirstAux {α : Type} [DecidableEq α] :
    ∀ (l seen : List α), (dedupFirstAux seen l).Nodup := by
  intro l
  induction l with
  | nil => intro seen; exact List.nodup_nil
  | cons x xs ih =>
      intro seen
      by_cases h : x ∈ seen
      · rw [show dedupFirstAux seen (x :: xs) = dedupFirstAux (x :: seen) xs from if_pos h]
        exact ih (x :: seen)
      · rw [show dedupFirstAux seen (x :: xs) = x :: dedupFirstAux (x :: seen) xs from if_neg h]
        refine List.nodup_cons.mpr ⟨fun hmem => ?_, ih (x :: seen)⟩
        exact ((mem_dedupFirstAux xs (x :: seen) x).mp hmem).2 (List.mem_cons_self x seen)

theorem countDupsAux_eq_zero_iff {α : Type} [DecidableEq α] :
    ∀ (l seen : List α), countDupsAux seen l = 0 ↔ l.Nodup ∧ ∀ a ∈ l, a ∉ seen := by
  intro l
  induction l with
  | nil => intro seen; simp [countDupsAux]
  | cons x xs ih =>
      intro seen
      by_cases h : x ∈ seen
      · simp only [countDupsAux, if_pos h]
        constructor
        · intro hc; omega
        · rintro ⟨_, hall⟩; exact absurd h (hall x (List.mem_cons_self x xs))
      · simp only [countDupsAux, if_neg h, Nat.zero_add, ih, List.nodup_cons]
        constructor
        · rintro ⟨hnd, hall⟩
          refine ⟨⟨fun hmem => (hall x hmem) (List.mem_cons_self x seen), hnd⟩, ?_⟩
          intro a ha
          rcases List.mem_cons.mp ha with rfl | ha'
          · exact h
          · exact fun hs => (hall a ha') (List.mem_cons_of_mem x hs)
        · rintro ⟨⟨hx, hnd⟩, hall⟩
          refine ⟨hnd, fun a ha hs => ?_⟩
          rcases List.mem_cons.mp hs with rfl | hs'
          · exact hx ha
          · exact (hall a (List.mem_cons_of_mem x ha)) hs'

theorem countDups_eq_zero_iff {α : Type} [DecidableEq α] (l : List α) :
    countDups l = 0 ↔ l.Nodup := by
  simpa [countDups] using countDupsAux_eq_zero_iff l []

theorem dedupFirst_length {α : Type} [DecidableEq α] (l : List α) :
    (dedupFirst l).length + countDups l = l.length :=
  dedupFirstAux_length l []

theorem dedupFirst_sublist {α : Type} [DecidableEq α] (l : List α) :
    (dedupFirst l).Sublist l :=
  dedupFirstAux_sublist l []

theorem dedupFirst_nodup {α : Type} [DecidableEq α] (l : List α) :
    (dedupFirst l).Nodup :=
  nodup_dedupFirstAux l []

theorem mem_dedupFirst {α : Type} [DecidableEq α] (l : List α) (a : α) :
    a ∈ dedupFirst l ↔ a ∈ l := by
  simp [dedupFirst, mem_dedupFirstAux]

/-! ### Column-index and eraseIdx lemmas -/

theorem colIndexAux_spec {c : String} :
    ∀ {l : List String} {i : Nat}, colIndexAux c l = some i →
      i < l.length ∧ l[i]? = some c := by
  intro l
  induction l with
  | nil => intro i h; cases h
  | cons x xs ih =>
      intro i h
      by_cases hx : x = c
      · rw [show colIndexAux c (x :: xs) = some 0 from by simp [colIndexAux, hx]] at h
        cases h
        exact ⟨Nat.succ_pos _, by simp [hx]⟩
      · rw [show colIndexAux c (x :: xs) = (colIndexAux c xs).map (· + 1) from by
            simp [colIndexAux, hx]] at h
        cases hrec : colIndexAux c xs with
        | none => rw [hrec] at h; cases h
        | some j =>
            rw [hrec] at h
            simp only [Option.map_some', Option.some.injEq] at h
            subst h
            obtain ⟨h1, h2⟩ := ih hrec
            exact ⟨Nat.succ_lt_succ h1, by simpa using h2⟩

theorem count_eraseIdx_colIndexAux {c : String} :
    ∀ {l : List String} {i : Nat}, colIndexAux c l = some i →
      (l.eraseIdx i).count c + 1 = l.count c := by
  intro l
  induction l with
  | nil => intro i h; cases h
  | cons x xs ih =>
      intro i h
      by_cases hx : x = c
      · rw [show colIndexAux c (x :: xs) = some 0 from by simp [colIndexAux, hx]] at h
        cases h
        simp [List.eraseIdx, List.count_cons, hx]
      · rw [show colIndexAux c (x :: xs) = (colIndexAux c xs).map (· + 1) from by
            simp [colIndexAux, hx]] at h
        cases hrec : colIndexAux c xs with
        | none => rw [hrec] at h; cases h
        | some j =>
            rw [hrec] at h
            simp only [Option.map_some', Option.some.injEq] at h
            subst h
            have := ih hrec
            simp only [List.eraseIdx, List.count_cons]
            have hxc : (x == c) = false := by simp [hx]
            simp [hxc, this]

theorem mem_eraseIdx_or {α : Type} :
    ∀ {l : List α} {i : Nat} {a x : α}, l[i]? = some a → x ∈ l →
      x ∈ l.eraseIdx i ∨ x = a := by
  intro l
  induction l with
  | nil => intro i a x h _; simp at h
  | cons y ys ih =>
      intro i a x h hx
      cases i with
      | zero =>
          simp only [List.getElem?_cons_zero, Option.some.injEq] at h
          subst h
          rcases List.mem_cons.mp hx with rfl | hx'
          · exact Or.inr rfl
          · exact Or.inl (by simpa [List.eraseIdx] using hx')
      | succ j =>
          simp only [List.getElem?_cons_succ] at h
          rcases List.mem_cons.mp hx with rfl | hx'
          · exact Or.inl (List.mem_cons_self x _)
          · rcases ih h hx' with hin | heq
            · exact Or.inl (List.mem_cons_of_mem y hin)
            · exact Or.inr heq

theorem mem_of_mem_eraseIdx' {α : Type} :
    ∀ {l : List α} {i : Nat} {x : α}, x ∈ l.eraseIdx i → x ∈ l := by
  intro l
  induction l with
  | nil => intro i x h; simp [List.eraseIdx] at h
  | cons y ys ih =>
      intro i x h
      cases i with
      | zero => exact List.mem_cons_of_mem y (by simpa [List.eraseIdx] using h)
      | succ j =>
          simp only [List.eraseIdx] at h
          rcases List.mem_cons.mp h with rfl | h'
          · exact List.mem_cons_self x _
          · exact List.mem_cons_of_mem y (ih h')

/-! ### Join lemmas -/

theorem mem_joinRows {f : List Value → List (List Value)} :
    ∀ (ls : List (List Value)) (row : List Value),
      row ∈ joinRows f ls ↔ ∃ lr ∈ ls, row ∈ f lr := by
  intro ls
  induction ls with
  | nil => intro row; simp [joinRows]
  | cons lr ls' ih =>
      intro row
      simp only [joinRows, List.mem_append, ih, List.mem_cons]
      constructor
      · rintro (h | ⟨lr', hmem, hrow⟩)
        · exact ⟨lr, Or.inl rfl, h⟩
        · exact ⟨lr', Or.inr hmem, hrow⟩
      · rintro ⟨lr', rfl | hmem, hrow⟩
        · exact Or.inl hrow
        · exact Or.inr ⟨lr', hmem, hrow⟩

theorem filter_key_length {ri : Nat} {v : Option Value} :
    ∀ (rrows : List (List Value)), (rrows.map (fun r => r[ri]?)).Nodup →
      (rrows.filter (fun rr => decide (rr[ri]? = v))).length
        = if v ∈ rrows.map (fun r => r[ri]?) then 1 else 0 := by
  intro rrows
  induction rrows with
  | nil => intro _; simp
  | cons rr rs ih =>
      intro hnd
      rw [List.map_cons, List.nodup_cons] at hnd
      obtain ⟨hnotin, hnd'⟩ := hnd
      by_cases hv : rr[ri]? = v
      · have hfilt : rs.filter (fun rr' => decide (rr'[ri]? = v)) = [] := by
          refine List.filter_eq_nil_iff.mpr (fun r hr => ?_)
          simp only [decide_eq_true_eq]
          intro heq
          exact hnotin (by rw [hv, ← heq]; exact List.mem_map_of_mem _ hr)
        rw [List.filter_cons_of_pos (by simpa using hv), hfilt]
        rw [if_pos (by rw [List.map_cons]; exact List.mem_cons.mpr (Or.inl hv.symm))]
        rfl
      · rw [List.filter_cons_of_neg (by simpa using hv), ih hnd']
        have : (v ∈ List.map (fun r => r[ri]?) (rr :: rs)) ↔ (v ∈ List.map (fun r => r[ri]?) rs) := by
          rw [List.map_cons, List.mem_cons]
          exact ⟨fun h => h.resolve_left (fun he => hv he.symm), Or.inr⟩
        by_cases hm : v ∈ List.map (fun r => r[ri]?) rs
        · rw [if_pos hm, if_pos (this.mpr hm)]
        · rw [if_neg hm, if_neg (fun hh => hm (this.mp hh))]

theorem joinRows_merge_length {li ri : Nat} (rrows : List (List Value))
    (hnd : (rrows.map (fun r => r[ri]?)).Nodup) (g : List Value → List Value → List Value) :
    ∀ (lrows : List (List Value)),
      (joinRows (fun lr => (rrows.filter (fun rr => decide (rr[ri]? = lr[li]?))).map (g lr))
        lrows).length
      = ((lrows.map (fun r => r[li]?)).filter
          (fun v => decide (v ∈ rrows.map (fun r => r[ri]?)))).length := by
  intro lrows
  induction lrows with
  | nil => rfl
  | cons lr ls ih =>
      simp only [joinRows, List.length_append, List.length_map, List.map_cons]
      rw [filter_key_length rrows hnd, ih]
      by_cases hm : lr[li]? ∈ rrows.map (fun r => r[ri]?)
      · rw [if_pos hm, List.filter_cons_of_pos (by simpa using hm)]
        simp [Nat.add_comm]
      · rw [if_neg hm, List.filter_cons_of_neg (by simpa using hm)]
        simp

theorem filter_mem_length_min (A B : List (Option Value))
    (hA : A.Nodup) (hB : B.Nodup) :
    (A.filter (fun v => decide (v ∈ B))).length ≤ min A.length B.length
    ∧ ((A.filter (fun v => decide (v ∈ B))).length = min A.length B.length ↔
        A.toFinset ⊆ B.toFinset ∨ B.toFinset ⊆ A.toFinset) := by
  classical
  have hfin : (A.filter (fun v => decide (v ∈ B))).toFinset = A.toFinset ∩ B.toFinset := by
    rw [List.toFinset_filter]
    ext x
    simp [List.mem_toFinset, Finset.mem_filter, Finset.mem_inter]
  have hlenA : A.toFinset.card = A.length := List.toFinset_card_of_nodup hA
  have hlenB : B.toFinset.card = B.length := List.toFinset_card_of_nodup hB
  have hfiltlen : (A.filter (fun v => decide (v ∈ B))).length
      = (A.toFinset ∩ B.toFinset).card := by
    rw [← hfin]
    exact (List.toFinset_card_of_nodup (hA.filter _)).symm
  constructor
  · rw [hfiltlen, ← hlenA, ← hlenB]
    exact le_min (Finset.card_le_card Finset.inter_subset_left)
      (Finset.card_le_card Finset.inter_subset_right)
  · rw [hfiltlen, ← hlenA, ← hlenB]
    constructor
    · intro hcard
      rcases le_total A.toFinset.card B.toFinset.card with hle | hle
      · left
        have h1 : (A.toFinset ∩ B.toFinset).card = A.toFinset.card := by
          rw [hcard]; exact min_eq_left hle
        have h2 : A.toFinset ∩ B.toFinset = A.toFinset :=
          Finset.eq_of_subset_of_card_le Finset.inter_subset_left (le_of_eq h1.symm)
        exact Finset.inter_eq_left.mp h2
      · right
        have h1 : (A.toFinset ∩ B.toFinset).card = B.toFinset.card := by
          rw [hcard]; exact min_eq_right hle
        have h2 : A.toFinset ∩ B.toFinset = B.toFinset :=
          Finset.eq_of_subset_of_card_le Finset.inter_subset_right (le_of_eq h1.symm)
        exact Finset.inter_eq_right.mp h2
    · rintro (hsub | hsub)
      · rw [Finset.inter_eq_left.mpr hsub, min_eq_left (Finset.card_le_card hsub)]
      · rw [Finset.inter_eq_right.mpr hsub, min_eq_right (Finset.card_le_card hsub)]

/-! ### Claim C3: join row count -/

/-- C3 counterexample: with messages ids `{1}` and categories ids `{1, 2}`
the merged row count `1` equals `min 1 2`, yet the two id sets are not
identical (`2` is an id of the categories table only) — refuting the
claimed "equality iff the id sets are identical". -/
theorem load_rowcount_min_cex :
    load_data { cols := ["id"], rows := [[Value.int 1]] }
        { cols := ["id"], rows := [[Value.int 1], [Value.int 2]] }
      = some { cols := ["id"], rows := [[Value.int 1]] }
    ∧ (1 : Nat) = min 1 2
    ∧ some (Value.int 2) ∈ idsOf { cols := ["id"], rows := [[Value.int 1], [Value.int 2]] } 0
    ∧ some (Value.int 2) ∉ idsOf { cols := ["id"], rows := [[Value.int 1]] } 0 := by
  refine ⟨by decide, by decide, by decide, by decide⟩

/-- C3 (amended): for valid inputs (an `id` column in each table and no
duplicate ids), the merged row count is at most
`min (rows messages) (rows categories)`, with equality iff one id set is
contained in the other (not: iff the id sets are identical). -/
theorem load_rowcount_min (m c t : Table) (mi ci : Nat)
    (hmi : colIndex m "id" = some mi) (hci : colIndex c "id" = some ci)
    (hndm : (idsOf m mi).Nodup) (hndc : (idsOf c ci).Nodup)
    (hmerge : load_data m c = some t) :
    t.rows.length ≤ min m.rows.length c.rows.length
    ∧ (t.rows.length = min m.rows.length c.rows.length ↔
        (idsOf m mi).toFinset ⊆ (idsOf c ci).toFinset
        ∨ (idsOf c ci).toFinset ⊆ (idsOf m mi).toFinset) := by
  have hrows : t.rows = joinRows
      (fun lr => (c.rows.filter (fun rr => decide (rr[ci]? = lr[mi]?))).map
        (fun rr => lr ++ rr.eraseIdx ci)) m.rows := by
    simp only [load_data, mergeOn, hmi, hci, Option.some.injEq] at hmerge
    rw [← hmerge]
  have hlen : t.rows.length
      = ((idsOf m mi).filter (fun v => decide (v ∈ idsOf c ci))).length := by
    rw [hrows]
    exact joinRows_merge_length c.rows hndc (fun lr rr => lr ++ rr.eraseIdx ci) m.rows
  have hmlen : m.rows.length = (idsOf m mi).length := (List.length_map _ _).symm
  have hclen : c.rows.length = (idsOf c ci).length := (List.length_map _ _).symm
  rw [hlen, hmlen, hclen]
  exact filter_mem_length_min (idsOf m mi) (idsOf c ci) hndm hndc

/-- C3 witness: the amended bound instantiated on a one-row messages
table and a one-row categories table sharing id `1`. -/
theorem load_rowcount_min_witness :
    ({ cols := ["id", "categories"], rows := [[Value.int 1, Value.str "x"]] } : Table).rows.length
      ≤ min 1 1
    ∧ (({ cols := ["id", "categories"], rows := [[Value.int 1, Value.str "x"]] } : Table).rows.length = min 1 1 ↔
        (idsOf { cols := ["id"], rows := [[Value.int 1]] } 0).toFinset ⊆
          (idsOf { cols := ["id", "categories"], rows := [[Value.int 1, Value.str "x"]] } 0).toFinset
        ∨ (idsOf { cols := ["id", "categories"], rows := [[Value.int 1, Value.str "x"]] } 0).toFinset ⊆
          (idsOf { cols := ["id"], rows := [[Value.int 1]] } 0).toFinset) :=
  load_rowcount_min
    { cols := ["id"], rows := [[Value.int 1]] }
    { cols := ["id", "categories"], rows := [[Value.int 1, Value.str "x"]] }
    { cols := ["id", "categories"], rows := [[Value.int 1, Value.str "x"]] }
    0 0 (by decide) (by decide) (by decide) (by decide) (by decide)

/-! ### Claim C7: inner-join semantics of the merge -/

/-- C7 counterexample: when both inputs carry a non-key column named
`original`, pandas renames the pair to `original_x` / `original_y`, so
the result's columns are not the union of the inputs' columns
(`original` itself is gone). -/
theorem load_inner_join_cex :
    load_data { cols := ["id", "original"], rows := [[Value.int 1, Value.str "o"]] } { cols := ["id", "original", "categories"], rows := [[Value.int 1, Value.str "p", Value.str "c-1"]] }
      = some { cols := ["id", "original_x", "original_y", "categories"], rows := [[Value.int 1, Value.str "o", Value.str "p", Value.str "c-1"]] }
    ∧ "original" ∈ ({ cols := ["id", "original"], rows := [[Value.int 1, Value.str "o"]] } : Table).cols
    ∧ "original" ∉ ({ cols := ["id", "original_x", "original_y", "categories"], rows := [[Value.int 1, Value.str "o", Value.str "p", Value.str "c-1"]] } : Table).cols := by
  refine ⟨by decide, by decide, by decide⟩

/-- C7 (amended): the merge is an inner join on `id` — every result row
carries an id occurring in both inputs, an id present in only one input
contributes no row, and, provided the inputs share no non-key column
name, the result's columns are the left columns followed by the right
columns minus the key: the union of both inputs' columns with the join
key appearing once.  (With a shared non-key column name pandas instead
emits `_x`/`_y`-suffixed copies.) -/
theorem load_inner_join (m c t : Table) (mi ci : Nat)
    (hmi : colIndex m "id" = some mi) (hci : colIndex c "id" = some ci)
    (hwf : ∀ r ∈ m.rows, r.length = m.cols.length)
    (hmerge : load_data m c = some t) :
    (∀ row ∈ t.rows, row[mi]? ∈ idsOf m mi ∧ row[mi]? ∈ idsOf c ci)
    ∧ (∀ v : Option Value,
        (v ∈ idsOf m mi ∧ v ∉ idsOf c ci) ∨ (v ∈ idsOf c ci ∧ v ∉ idsOf m mi) →
        ∀ row ∈ t.rows, row[mi]? ≠ v)
    ∧ ((∀ x ∈ m.cols, x ∈ c.cols → x = "id") →
        t.cols = m.cols ++ c.cols.eraseIdx ci
        ∧ (∀ x, x ∈ t.cols ↔ x ∈ m.cols ∨ x ∈ c.cols)
        ∧ (m.cols.count "id" = 1 → c.cols.count "id" = 1 → t.cols.count "id" = 1)) := by
  simp only [load_data, mergeOn, hmi, hci, Option.some.injEq] at hmerge
  subst hmerge
  have hmival : m.cols[mi]? = some "id" := (colIndexAux_spec hmi).2
  have hmilt : mi < m.cols.length := (colIndexAux_spec hmi).1
  have hcival : c.cols[ci]? = some "id" := (colIndexAux_spec hci).2
  have hrowmem : ∀ row ∈ joinRows
      (fun lr => (c.rows.filter (fun rr => decide (rr[ci]? = lr[mi]?))).map
        (fun rr => lr ++ rr.eraseIdx ci)) m.rows,
      row[mi]? ∈ idsOf m mi ∧ row[mi]? ∈ idsOf c ci := by
    intro row hrow
    obtain ⟨lr, hlr, hmem⟩ := (mem_joinRows m.rows row).mp hrow
    obtain ⟨rr, hrrf, rfl⟩ := List.mem_map.mp hmem
    obtain ⟨hrrc, hkey⟩ := List.mem_filter.mp hrrf
    have hkey' : rr[ci]? = lr[mi]? := of_decide_eq_true hkey
    have hidx : (lr ++ rr.eraseIdx ci)[mi]? = lr[mi]? := by
      rw [List.getElem?_append, if_pos (by rw [hwf lr hlr]; exact hmilt)]
    rw [hidx]
    exact ⟨List.mem_map_of_mem _ hlr, hkey' ▸ List.mem_map_of_mem _ hrrc⟩
  refine ⟨hrowmem, ?_, ?_⟩
  · rintro v (⟨_, hno⟩ | ⟨_, hno⟩) row hrow heq <;>
      · obtain ⟨h1, h2⟩ := hrowmem row hrow
        rw [heq] at h1 h2
        first | exact hno h2 | exact hno h1
  · intro hov
    have hleft : m.cols.map (fun x => if x ≠ "id" ∧ x ∈ c.cols then x ++ "_x" else x)
        = m.cols := by
      have : ∀ x ∈ m.cols, (if x ≠ "id" ∧ x ∈ c.cols then x ++ "_x" else x) = id x := by
        intro x hx
        rw [if_neg (fun hcond => hcond.1 (hov x hx hcond.2))]
        rfl
      rw [List.map_congr_left this, List.map_id]
    have hright : (c.cols.eraseIdx ci).map (fun x => if x ≠ "id" ∧ x ∈ m.cols then x ++ "_y" else x)
        = c.cols.eraseIdx ci := by
      have : ∀ x ∈ c.cols.eraseIdx ci,
          (if x ≠ "id" ∧ x ∈ m.cols then x ++ "_y" else x) = id x := by
        intro x hx
        rw [if_neg (fun hcond => hcond.1 (hov x hcond.2 (mem_of_mem_eraseIdx' hx)))]
        rfl
      rw [List.map_congr_left this, List.map_id]
    refine ⟨by simp only [hleft, hright], ?_, ?_⟩
    · intro x
      simp only [hleft, hright, List.mem_append]
      constructor
      · rintro (hx | hx)
        · exact Or.inl hx
        · exact Or.inr (mem_of_mem_eraseIdx' hx)
      · rintro (hx | hx)
        · exact Or.inl hx
        · rcases mem_eraseIdx_or hcival hx with hin | rfl
          · exact Or.inr hin
          · exact Or.inl (List.getElem?_mem hmival)
    · intro hm1 hc1
      simp only [hleft, hright, List.count_append]
      have herase : (c.cols.eraseIdx ci).count "id" + 1 = c.cols.count "id" :=
        count_eraseIdx_colIndexAux hci
      omega

/-- C7 witness: the join properties instantiated on a one-row messages
table and a one-row categories table with disjoint non-key columns and
no common id (so the join is empty). -/
theorem load_inner_join_witness :
    (∀ row ∈ ({ cols := ["id"], rows := [] } : Table).rows,
        row[0]? ∈ idsOf { cols := ["id"], rows := [[Value.int 1]] } 0
        ∧ row[0]? ∈ idsOf { cols := ["id"], rows := [[Value.int 2]] } 0)
    ∧ (∀ v : Option Value,
        (v ∈ idsOf { cols := ["id"], rows := [[Value.int 1]] } 0
            ∧ v ∉ idsOf { cols := ["id"], rows := [[Value.int 2]] } 0)
        ∨ (v ∈ idsOf { cols := ["id"], rows := [[Value.int 2]] } 0
            ∧ v ∉ idsOf { cols := ["id"], rows := [[Value.int 1]] } 0) →
        ∀ row ∈ ({ cols := ["id"], rows := [] } : Table).rows, row[0]? ≠ v)
    ∧ ((∀ x ∈ ({ cols := ["id"], rows := [[Value.int 1]] } : Table).cols,
          x ∈ ({ cols := ["id"], rows := [[Value.int 2]] } : Table).cols → x = "id") →
        ({ cols := ["id"], rows := [] } : Table).cols
            = ({ cols := ["id"], rows := [[Value.int 1]] } : Table).cols
              ++ ({ cols := ["id"], rows := [[Value.int 2]] } : Table).cols.eraseIdx 0
        ∧ (∀ x, x ∈ ({ cols := ["id"], rows := [] } : Table).cols ↔
            x ∈ ({ cols := ["id"], rows := [[Value.int 1]] } : Table).cols
            ∨ x ∈ ({ cols := ["id"], rows := [[Value.int 2]] } : Table).cols)
        ∧ (({ cols := ["id"], rows := [[Value.int 1]] } : Table).cols.count "id" = 1 →
            ({ cols := ["id"], rows := [[Value.int 2]] } : Table).cols.count "id" = 1 →
            ({ cols := ["id"], rows := [] } : Table).cols.count "id" = 1)) :=
  load_inner_join
    { cols := ["id"], rows := [[Value.int 1]] }
    { cols := ["id"], rows := [[Value.int 2]] }
    { cols := ["id"], rows := [] }
    0 0 (by decide) (by decide) (by decide) (by decide)

/-! ### Claim C1: destination path handling of save -/

/-- C1: evaluation at the failing input.  `save_data` builds its sqlite
URL from `database_filename.name`, so for destination path
`data/disaster.db` the store is created under `disaster.db` (the
current working directory), not at the given path: the directory
component is discarded.  The table is written under the name `messages`
with no positional index column (`index=False`). -/
theorem save_data_strips_directory :
    save_data { cols := ["id"], rows := [[Value.int 1]] } "data/disaster.db" []
      = Except.ok [("disaster.db", [("messages", { cols := ["id"], rows := [[Value.int 1]] })])]
    ∧ pathName "data/disaster.db" = "disaster.db"
    ∧ "disaster.db" ≠ "data/disaster.db" := by
  refine ⟨by decide, by decide, by decide⟩

/-! ### Claim C6: fail-if-exists persistence policy -/

/-- The store written back for a path is the store read back for it. -/
theorem lookup_setStore (fs : FileSys) (p : String) (v : Store) :
    lookupStore (setStore fs p v) p = v := by
  unfold lookupStore setStore
  rw [List.find?_cons_of_pos _ (by simp)]
  rfl

/-- C6: `to_sql` uses the default `if_exists='fail'` policy — if the
destination store already holds a table named `messages` the write
fails with a table-exists error (nothing is overwritten or appended,
the file system is returned unchanged inside the error), and saving
twice in succession against the same destination path always fails on
the second call. -/
theorem save_data_fail_if_exists :
    (∀ (df : Table) (p : String) (fs : FileSys),
        (lookupStore fs (pathName p)).any (fun e => e.1 = "messages") →
        save_data df p fs = Except.error SaveError.tableExists)
    ∧ (∀ (df₁ df₂ : Table) (p : String) (fs fs' : FileSys),
        save_data df₁ p fs = Except.ok fs' →
        save_data df₂ p fs' = Except.error SaveError.tableExists) := by
  constructor
  · intro df p fs hex
    have htos : toSql "messages" df false (lookupStore fs (pathName p))
        = Except.error SaveError.tableExists := by
      unfold toSql
      rw [if_pos hex]
    unfold save_data
    rw [htos]
  · intro df₁ df₂ p fs fs' hok
    unfold save_data at hok
    cases htos : toSql "messages" df₁ false (lookupStore fs (pathName p)) with
    | error e =>
        rw [htos] at hok
        cases hok
    | ok s =>
        rw [htos] at hok
        cases hok
        unfold toSql at htos
        by_cases hc : (lookupStore fs (pathName p)).any (fun e => e.1 = "messages")
        · rw [if_pos hc] at htos
          cases htos
        · rw [if_neg hc] at htos
          cases htos
          unfold save_data
          rw [lookup_setStore]
          have hany : ((lookupStore fs (pathName p))
              ++ [("messages", if false then withIndex df₁ else df₁)]).any
                (fun e => e.1 = "messages") = true := by
            simp
          unfold toSql
          rw [if_pos hany]

/-- C6 witness: a save against a store already holding `messages`
fails, and a first successful save followed by a second save against
the same destination fails on the second call. -/
theorem save_data_fail_if_exists_witness :
    save_data { cols := ["id"], rows := [[Value.int 2]] } "out.db"
        [("out.db", [("messages", { cols := ["id"], rows := [[Value.int 1]] })])]
      = Except.error SaveError.tableExists
    ∧ save_data { cols := ["id"], rows := [[Value.int 1]] } "out.db" []
      = Except.ok [("out.db", [("messages", { cols := ["id"], rows := [[Value.int 1]] })])]
    ∧ save_data { cols := ["id"], rows := [[Value.int 2]] } "out.db"
        [("out.db", [("messages", { cols := ["id"], rows := [[Value.int 1]] })])]
      = Except.error SaveError.tableExists :=
  ⟨save_data_fail_if_exists.1 { cols := ["id"], rows := [[Value.int 2]] } "out.db"
      [("out.db", [("messages", { cols := ["id"], rows := [[Value.int 1]] })])] (by decide),
   by decide,
   save_data_fail_if_exists.2 { cols := ["id"], rows := [[Value.int 1]] }
      { cols := ["id"], rows := [[Value.int 2]] } "out.db" []
      [("out.db", [("messages", { cols := ["id"], rows := [[Value.int 1]] })])] (by decide)⟩

/-! ### Claim C2: behaviour on the empty table -/

/-- C2 counterexample: on the empty input table clean fails with the
positional-index error of `iloc[0]` (first-row extraction), which is an
earlier step than — and a different error class from — the claimed
division-by-zero in the duplicate-percentage computation. -/
theorem clean_empty_cex :
    clean_data { cols := ["id", "message", "categories"], rows := [] }
      = ({ cols := ["id", "message", "categories"], rows := [] }, Except.error CleanError.indexError)
    ∧ CleanError.indexError ≠ CleanError.zeroDivision := by
  refine ⟨by decide, by decide⟩

/-- C2 (amended): on every zero-row input table having a `categories`
column, clean fails with the index-out-of-bounds error raised by
`iloc[0]` while extracting the first row for column naming — a step
that precedes the duplicate-percentage division — and the caller's
table is left unchanged (it never reaches the in-place drop). -/
theorem clean_empty_fails_at_first_row (t : Table) (i : Nat)
    (hi : colIndex t "categories" = some i) (hrows : t.rows = []) :
    clean_data t = (t, Except.error CleanError.indexError) := by
  have hsegs : segLists t i = Except.ok [] := by
    unfold segLists
    rw [hrows]
    rfl
  have htrans : cleanTransform t = Except.error CleanError.indexError := by
    simp only [cleanTransform, hi, hsegs, List.map_nil, List.head?_nil]
  unfold clean_data
  rw [htrans]

/-- C2 witness: the amended statement evaluated on a concrete empty
table. -/
theorem clean_empty_fails_at_first_row_witness :
    clean_data { cols := ["categories"], rows := [] }
      = ({ cols := ["categories"], rows := [] }, Except.error CleanError.indexError) :=
  clean_empty_fails_at_first_row { cols := ["categories"], rows := [] } 0 (by decide) rfl

/-! ### Claim C4: clean mutates its input -/

/-- C4 counterexample: `clean_data` succeeds on this table, yet the
caller's table afterwards (first component) has lost its `categories`
column — the line-39 `drop(columns=['categories'], inplace=True)`
mutates the argument, so clean is not a pure transformation. -/
theorem clean_mutates_cex :
    (clean_data { cols := ["id", "message", "categories"], rows := [[Value.int 1, Value.str "help", Value.str "related-1;request-0"]] }).1
      = { cols := ["id", "message"], rows := [[Value.int 1, Value.str "help"]] }
    ∧ (clean_data { cols := ["id", "message", "categories"], rows := [[Value.int 1, Value.str "help", Value.str "related-1;request-0"]] }).2
      = Except.ok { cols := ["id", "message", "related", "request"], rows := [[Value.int 1, Value.str "help", Value.int 1, Value.int 0]] }
    ∧ "categories" ∈ ({ cols := ["id", "message", "categories"], rows := [[Value.int 1, Value.str "help", Value.str "related-1;request-0"]] } : Table).cols
    ∧ "categories" ∉ (clean_data { cols := ["id", "message", "categories"], rows := [[Value.int 1, Value.str "help", Value.str "related-1;request-0"]] }).1.cols := by
  refine ⟨by decide, by decide, by decide, by decide⟩

/-- C4 (amended): clean is not pure — on every input on which it
succeeds, the caller's table is left mutated: its `categories` column
(name and cells) has been dropped in place, so when the input carried
exactly one `categories` column the caller's table no longer contains
one after the call. -/
theorem clean_mutates_input (t st out : Table) (i : Nat)
    (hok : clean_data t = (st, Except.ok out))
    (hi : colIndex t "categories" = some i) :
    st = { cols := t.cols.eraseIdx i, rows := t.rows.map (fun r => r.eraseIdx i) }
    ∧ (t.cols.count "categories" = 1 → "categories" ∉ st.cols) := by
  have hst : st = dropCategories t := by
    unfold clean_data at hok
    cases htr : cleanTransform t with
    | error e =>
        simp only [htr] at hok
        have := congrArg Prod.snd hok
        simp at this
    | ok u =>
        simp only [htr] at hok
        by_cases hz : u.rows.length = 0
        · rw [if_pos hz] at hok
          have := congrArg Prod.snd hok
          simp at this
        · rw [if_neg hz] at hok
          exact (congrArg Prod.fst hok).symm
  subst hst
  unfold dropCategories
  rw [hi]
  refine ⟨rfl, ?_⟩
  intro hcount hmem
  have hc := count_eraseIdx_colIndexAux hi
  have hzero : (t.cols.eraseIdx i).count "categories" = 0 := by omega
  rw [List.count_eq_zero] at hzero
  exact hzero hmem

/-- C4 witness: the amended mutation statement evaluated on a concrete
table. -/
theorem clean_mutates_input_witness :
    ({ cols := ["id", "categories"], rows := [[Value.int 1, Value.str "c-1"]] } : Table).cols.eraseIdx 1 = ["id"]
    ∧ ({ cols := ["id"], rows := [[Value.int 1]] } : Table)
        = { cols := (["id", "categories"] : List String).eraseIdx 1,
            rows := ([[Value.int 1, Value.str "c-1"]] : List (List Value)).map (fun r => r.eraseIdx 1) }
    ∧ ((["id", "categories"] : List String).count "categories" = 1 →
        "categories" ∉ ({ cols := ["id"], rows := [[Value.int 1]] } : Table).cols) := by
  refine ⟨by decide, ?_, ?_⟩
  · exact (clean_mutates_input { cols := ["id", "categories"], rows := [[Value.int 1, Value.str "c-1"]] }
      { cols := ["id"], rows := [[Value.int 1]] }
      { cols := ["id", "c"], rows := [[Value.int 1, Value.int 1]] } 1 (by decide) (by decide)).1
  · exact (clean_mutates_input { cols := ["id", "categories"], rows := [[Value.int 1, Value.str "c-1"]] }
      { cols := ["id"], rows := [[Value.int 1]] }
      { cols := ["id", "c"], rows := [[Value.int 1, Value.int 1]] } 1 (by decide) (by decide)).2

/-! ### Pipeline lemmas for the cleaning stage -/

theorem mapExcept_mem_rev {α β : Type} {f : α → Except CleanError β} :
    ∀ {l : List α} {bs : List β}, mapExcept f l = Except.ok bs →
      ∀ b ∈ bs, ∃ a ∈ l, f a = Except.ok b := by
  intro l
  induction l with
  | nil =>
      intro bs h b hb
      simp only [mapExcept, Except.ok.injEq] at h
      subst h
      simp at hb
  | cons x xs ih =>
      intro bs h b hb
      simp only [mapExcept] at h
      cases hfa : f x with
      | error e => rw [hfa] at h; cases h
      | ok b0 =>
          rw [hfa] at h
          cases hrec : mapExcept f xs with
          | error e => rw [hrec] at h; cases h
          | ok bs' =>
              rw [hrec] at h
              cases h
              rcases List.mem_cons.mp hb with rfl | hb'
              · exact ⟨x, List.mem_cons_self x xs, hfa⟩
              · obtain ⟨a, ha, hfa'⟩ := ih hrec b hb'
                exact ⟨a, List.mem_cons_of_mem x ha, hfa'⟩

theorem row_values_core :
    ∀ {l sr : List String} {ir : List Int},
      mapExcept splitCell (l.map some) = Except.ok sr →
      mapExcept intCell sr = Except.ok ir →
      ir = l.map segIntFn := by
  intro l
  induction l with
  | nil =>
      intro sr ir hsr hir
      simp only [List.map_nil, mapExcept, Except.ok.injEq] at hsr
      subst hsr
      simp only [mapExcept, Except.ok.injEq] at hir
      subst hir
      rfl
  | cons s l' ih =>
      intro sr ir hsr hir
      simp only [List.map_cons, mapExcept] at hsr
      cases hsp : splitCell (some s) with
      | error e => rw [hsp] at hsr; cases hsr
      | ok p =>
          rw [hsp] at hsr
          cases hrec : mapExcept splitCell (l'.map some) with
          | error e => rw [hrec] at hsr; cases hsr
          | ok sr' =>
              rw [hrec] at hsr
              cases hsr
              simp only [mapExcept] at hir
              cases hpi : intCell p with
              | error e => rw [hpi] at hir; cases hir
              | ok n =>
                  rw [hpi] at hir
                  cases hrec2 : mapExcept intCell sr' with
                  | error e => rw [hrec2] at hir; cases hir
                  | ok ir' =>
                      rw [hrec2] at hir
                      cases hir
                      have hs : segIntFn s = n := by
                        cases hidx : (splitStr '-' s)[1]? with
                        | none =>
                            simp only [splitCell, hidx] at hsp
                            cases hsp
                        | some q =>
                            simp only [splitCell, hidx, Except.ok.injEq] at hsp
                            subst hsp
                            cases hparse : parseInt q with
                            | none => simp only [intCell, hparse] at hpi; cases hpi
                            | some n' =>
                                simp only [intCell, hparse, Except.ok.injEq] at hpi
                                subst hpi
                                simp [segIntFn, hidx, hparse]
                      rw [List.map_cons, hs, ih hrec hrec2]

theorem mapExcept_padTo_strip {β : Type} {f : Option String → Except CleanError β}
    (hf : f none = Except.error CleanError.attributeError) {N : Nat} {l : List String}
    {bs : List β} (h : mapExcept f (padTo N l) = Except.ok bs) :
    mapExcept f (l.map some) = Except.ok bs := by
  unfold padTo at h
  obtain ⟨b₁, b₂, h₁, h₂, rfl⟩ := mapExcept_append_ok h
  cases hN : N - l.length with
  | zero =>
      rw [hN] at h₂
      simp only [List.replicate, mapExcept, Except.ok.injEq] at h₂
      subst h₂
      rw [List.append_nil]
      exact h₁
  | succ k =>
      rw [hN] at h₂
      simp only [List.replicate, mapExcept, hf] at h₂
      cases h₂

theorem row_pipeline {N : Nat} {l sr : List String} {ir : List Int}
    (hsr : mapExcept splitCell (padTo N l) = Except.ok sr)
    (hir : mapExcept intCell sr = Except.ok ir) :
    ir = l.map segIntFn :=
  row_values_core (mapExcept_padTo_strip rfl hsr) hir

theorem maxLen_const {n : Nat} :
    ∀ {ls : List (List String)}, (∀ x ∈ ls, x.length = n) → ls ≠ [] → maxLen ls = n := by
  intro ls
  induction ls with
  | nil => intro _ hne; exact absurd rfl hne
  | cons l ls' ih =>
      intro hall _
      have hl : l.length = n := hall l (List.mem_cons_self l ls')
      cases ls' with
      | nil => simp [maxLen, hl]
      | cons y ys =>
          have hrec : maxLen (y :: ys) = n :=
            ih (fun x hx => hall x (List.mem_cons_of_mem l hx)) (by simp)
          show max l.length (maxLen (y :: ys)) = n
          rw [hl, hrec, Nat.max_self]

theorem padTo_exact {n : Nat} {l : List String} (h : l.length = n) :
    padTo n l = l.map some := by
  unfold padTo
  rw [h, Nat.sub_self, List.replicate_zero, List.append_nil]

theorem trans_rows_core (i N : Nat) :
    ∀ (rows : List (List Value)) (segs strRows : List (List String)) (intRows : List (List Int)),
      mapExcept (segCell i) rows = Except.ok segs →
      mapExcept (mapExcept splitCell) (segs.map (padTo N)) = Except.ok strRows →
      mapExcept (mapExcept intCell) strRows = Except.ok intRows →
      List.zipWith (fun r ir => r.eraseIdx i ++ ir.map Value.int) rows intRows
        = rows.map (rowTrans i) := by
  intro rows
  induction rows with
  | nil =>
      intro segs strRows intRows hseg hstr hint
      simp only [mapExcept, Except.ok.injEq] at hseg
      subst hseg
      simp only [List.map_nil, mapExcept, Except.ok.injEq] at hstr
      subst hstr
      simp only [mapExcept, Except.ok.injEq] at hint
      subst hint
      rfl
  | cons r rows' ih =>
      intro segs strRows intRows hseg hstr hint
      simp only [mapExcept] at hseg
      cases hsc : segCell i r with
      | error e => rw [hsc] at hseg; cases hseg
      | ok sg =>
          rw [hsc] at hseg
          cases hrec : mapExcept (segCell i) rows' with
          | error e => rw [hrec] at hseg; cases hseg
          | ok segs' =>
              rw [hrec] at hseg
              cases hseg
              simp only [List.map_cons, mapExcept] at hstr
              cases hsp : mapExcept splitCell (padTo N sg) with
              | error e => rw [hsp] at hstr; cases hstr
              | ok sr0 =>
                  rw [hsp] at hstr
                  cases hrec2 : mapExcept (mapExcept splitCell) (segs'.map (padTo N)) with
                  | error e => rw [hrec2] at hstr; cases hstr
                  | ok strRows' =>
                      rw [hrec2] at hstr
                      cases hstr
                      simp only [mapExcept] at hint
                      cases hic : mapExcept intCell sr0 with
                      | error e => rw [hic] at hint; cases hint
                      | ok ir0 =>
                          rw [hic] at hint
                          cases hrec3 : mapExcept (mapExcept intCell) strRows' with
                          | error e => rw [hrec3] at hint; cases hint
                          | ok intRows' =>
                              rw [hrec3] at hint
                              cases hint
                              have hir0 : ir0 = sg.map segIntFn := row_pipeline hsp hic
                              have hhead : r.eraseIdx i ++ ir0.map Value.int = rowTrans i r := by
                                cases hcell : r[i]? with
                                | none =>
                                    simp only [segCell, hcell] at hsc
                                    cases hsc
                                | some v =>
                                    cases v with
                                    | int k =>
                                        simp only [segCell, hcell] at hsc
                                        cases hsc
                                    | str s =>
                                        simp only [segCell, hcell, Except.ok.injEq] at hsc
                                        simp only [rowTrans, rowVals, hcell, hir0, hsc]
                              rw [List.zipWith_cons_cons, List.map_cons, hhead,
                                ih segs' strRows' intRows' hrec hrec2 hrec3]

theorem cleanTransform_ok_destruct {t : Table} {i : Nat} {u : Table}
    (hi : colIndex t "categories" = some i) (htr : cleanTransform t = Except.ok u) :
    ∃ segs row0 names strRows intRows,
      segLists t i = Except.ok segs
      ∧ (segs.map (padTo (maxLen segs))).head? = some row0
      ∧ mapExcept nameOfCell row0 = Except.ok names
      ∧ mapExcept (mapExcept splitCell) (segs.map (padTo (maxLen segs))) = Except.ok strRows
      ∧ mapExcept (mapExcept intCell) strRows = Except.ok intRows
      ∧ u.cols = t.cols.eraseIdx i ++ names
      ∧ u.rows = List.zipWith (fun r ir => r.eraseIdx i ++ ir.map Value.int) t.rows intRows := by
  simp only [cleanTransform, hi] at htr
  cases hseg : segLists t i with
  | error e => simp only [hseg] at htr; cases htr
  | ok segs =>
      simp only [hseg] at htr
      cases hrow0 : (segs.map (padTo (maxLen segs))).head? with
      | none => simp only [hrow0] at htr; cases htr
      | some row0 =>
          simp only [hrow0] at htr
          cases hnames : mapExcept nameOfCell row0 with
          | error e => simp only [hnames] at htr; cases htr
          | ok names =>
              simp only [hnames] at htr
              cases hstr : mapExcept (mapExcept splitCell) (segs.map (padTo (maxLen segs))) with
              | error e => simp only [hstr] at htr; cases htr
              | ok strRows =>
                  simp only [hstr] at htr
                  cases hint : mapExcept (mapExcept intCell) strRows with
                  | error e => simp only [hint] at htr; cases htr
                  | ok intRows =>
                      simp only [hint, Except.ok.injEq] at htr
                      subst htr
                      exact ⟨segs, row0, names, strRows, intRows,
                        rfl, hrow0, hnames, hstr, hint, rfl, rfl⟩

theorem clean_data_ok_destruct {t st out : Table} (hok : clean_data t = (st, Except.ok out)) :
    ∃ u, cleanTransform t = Except.ok u ∧ u.rows.length ≠ 0
      ∧ st = dropCategories t ∧ out.cols = u.cols ∧ out.rows = dedupFirst u.rows := by
  unfold clean_data at hok
  cases htr : cleanTransform t with
  | error e =>
      simp only [htr] at hok
      have := congrArg Prod.snd hok
      simp at this
  | ok u =>
      simp only [htr] at hok
      by_cases hz : u.rows.length = 0
      · rw [if_pos hz] at hok
        have := congrArg Prod.snd hok
        simp at this
      · rw [if_neg hz] at hok
        have h1 := congrArg Prod.fst hok
        have h2 := congrArg Prod.snd hok
        simp only at h1 h2
        have h3 : ({ cols := u.cols, rows := dedupFirst u.rows } : Table) = out :=
          Except.ok.inj h2
        exact ⟨u, rfl, hz, h1.symm, (congrArg Table.cols h3).symm, (congrArg Table.rows h3).symm⟩

/-- On any successful run of lines 34–40, the concatenated table's rows
are the per-row image of the input's rows: each row keeps its non-
category cells and gains one integer cell per `;`-segment — the integer
after the first `-` of the segment. -/
theorem cleanTransform_rows {t : Table} {i : Nat} {u : Table}
    (hi : colIndex t "categories" = some i) (htr : cleanTransform t = Except.ok u) :
    u.rows = t.rows.map (rowTrans i) := by
  obtain ⟨segs, row0, names, strRows, intRows, hseg, _, _, hstr, hint, _, hrows⟩ :=
    cleanTransform_ok_destruct hi htr
  rw [hrows]
  exact trans_rows_core i (maxLen segs) t.rows segs strRows intRows hseg hstr hint

/-- On any successful run, the concatenated table's header is the input
header minus `categories` followed by the prefixes (the piece before
the first `-`) of the first row's `;`-segments. -/
theorem cleanTransform_names {t : Table} {i : Nat} {u : Table} {r0 : List Value} {s0 : String}
    (hi : colIndex t "categories" = some i) (htr : cleanTransform t = Except.ok u)
    (hr0 : t.rows.head? = some r0) (hcell : r0[i]? = some (Value.str s0)) :
    u.cols = t.cols.eraseIdx i
      ++ (splitStr ';' s0).map (fun seg => (splitStr '-' seg).headD "") := by
  obtain ⟨segs, row0, names, strRows, intRows, hseg, hrow0, hnames, _, _, hcols, _⟩ :=
    cleanTransform_ok_destruct hi htr
  have hget0 : t.rows[0]? = some r0 := by rw [← List.head?_eq_getElem?]; exact hr0
  obtain ⟨sg0, hsc, hsegs0⟩ := mapExcept_get hseg 0 r0 hget0
  have hsg0 : sg0 = splitStr ';' s0 := by
    simp only [segCell, hcell, Except.ok.injEq] at hsc
    exact hsc.symm
  have hrow0' : row0 = padTo (maxLen segs) sg0 := by
    rw [List.head?_map, List.head?_eq_getElem?, hsegs0] at hrow0
    exact (Option.some.inj hrow0).symm
  have hnames' : names = sg0.map (fun seg => (splitStr '-' seg).headD "") := by
    rw [hrow0'] at hnames
    have hstrip := mapExcept_padTo_strip rfl hnames
    rw [mapExcept_map_some nameOfCell (fun s => (splitStr '-' s).headD "")
      (fun a => rfl) sg0] at hstrip
    exact (Except.ok.inj hstrip).symm
  rw [hcols, hnames', hsg0]

/-! ### Claim C8: column names from the first row -/

/-- C8: on every non-empty input on which clean succeeds, the output
header is the input header minus `categories` followed by one column
per `;`-segment of **row 0's** `categories` value, named by the piece
before the segment's first `-`; this single header applies to all rows
regardless of their own content. -/
theorem clean_header_from_first_row (t : Table) (i : Nat) (r0 : List Value) (s0 : String)
    (st out : Table)
    (hi : colIndex t "categories" = some i)
    (hr0 : t.rows.head? = some r0)
    (hcell : r0[i]? = some (Value.str s0))
    (hok : clean_data t = (st, Except.ok out)) :
    out.cols = t.cols.eraseIdx i
      ++ (splitStr ';' s0).map (fun seg => (splitStr '-' seg).headD "") := by
  obtain ⟨u, htr, _, _, hcols, _⟩ := clean_data_ok_destruct hok
  rw [hcols]
  exact cleanTransform_names hi htr hr0 hcell

/-- C8 witness: the header law evaluated on a concrete one-row table. -/
theorem clean_header_from_first_row_witness :
    ({ cols := ["id", "related", "request"], rows := [[Value.int 7, Value.int 1, Value.int 0]] } : Table).cols
      = (["id", "categories"] : List String).eraseIdx 1
        ++ (splitStr ';' "related-1;request-0").map (fun seg => (splitStr '-' seg).headD "") :=
  clean_header_from_first_row
    { cols := ["id", "categories"], rows := [[Value.int 7, Value.str "related-1;request-0"]] }
    1 [Value.int 7, Value.str "related-1;request-0"] "related-1;request-0"
    { cols := ["id"], rows := [[Value.int 7]] }
    { cols := ["id", "related", "request"], rows := [[Value.int 7, Value.int 1, Value.int 0]] }
    (by decide) (by decide) (by decide) (by decide)

/-! ### Claim C9: concrete category expansion -/

/-- C9: for an input row whose `categories` value is
`"related-1;request-0"`, clean produces the integer columns
`related = 1` and `request = 0`, and the original `categories` column
is absent from the output. -/
theorem clean_category_expansion :
    (clean_data { cols := ["id", "message", "categories"], rows := [[Value.int 1, Value.str "help", Value.str "related-1;request-0"]] }).2
      = Except.ok { cols := ["id", "message", "related", "request"], rows := [[Value.int 1, Value.str "help", Value.int 1, Value.int 0]] }
    ∧ "categories" ∉ ({ cols := ["id", "message", "related", "request"], rows := [[Value.int 1, Value.str "help", Value.int 1, Value.int 0]] } : Table).cols := by
  refine ⟨by decide, by decide⟩

/-! ### Claim C10: de-duplication -/

/-- C10 counterexample: the input has exactly one exact-duplicate row
(row 2 repeats row 0; row 1 differs in its `categories` string), yet
the output has 1 row, not 3 − 1 = 2: de-duplication runs on the
*transformed* table, where `"c-1"` and `"c-01"` have both become the
integer 1, so a distinct input row is also removed. -/
theorem clean_dedup_cex :
    countDups ([[Value.int 1, Value.str "c-1"], [Value.int 1, Value.str "c-01"], [Value.int 1, Value.str "c-1"]] : List (List Value)) = 1
    ∧ (clean_data { cols := ["id", "categories"], rows := [[Value.int 1, Value.str "c-1"], [Value.int 1, Value.str "c-01"], [Value.int 1, Value.str "c-1"]] }).2
      = Except.ok { cols := ["id", "c"], rows := [[Value.int 1, Value.int 1]] }
    ∧ ({ cols := ["id", "c"], rows := [[Value.int 1, Value.int 1]] } : Table).rows.length = 1
    ∧ (1 : Nat) ≠ 3 - 1 := by
  refine ⟨by decide, by decide, by decide, by decide⟩

/-- C10 (amended): clean removes the exact duplicates of the
*transformed* (category-expanded) rows, keeping the first occurrence
and preserving order: the output rows are a duplicate-free,
order-preserving selection of the transformed rows with the same
members, and the output row count is the input row count minus the
number of transformed rows equal to an earlier one.  An input with an
exact duplicate row always loses at least one row, and loses exactly
one iff exactly one transformed row duplicates an earlier one —
distinct input rows whose category strings encode the same integers
(e.g. `c-1` vs `c-01`) also collapse. -/
theorem clean_dedup_first (t st out u : Table) (i : Nat)
    (hi : colIndex t "categories" = some i)
    (hok : clean_data t = (st, Except.ok out))
    (htr : cleanTransform t = Except.ok u) :
    out.rows = dedupFirst u.rows
    ∧ out.rows.Sublist u.rows
    ∧ out.rows.Nodup
    ∧ (∀ r, r ∈ out.rows ↔ r ∈ u.rows)
    ∧ out.rows.length + countDups u.rows = u.rows.length
    ∧ u.rows.length = t.rows.length
    ∧ (countDups u.rows = 1 → out.rows.length = t.rows.length - 1)
    ∧ (¬ t.rows.Nodup → out.rows.length ≤ t.rows.length - 1) := by
  obtain ⟨u', htr', hne, hst, hcols, hrows⟩ := clean_data_ok_destruct hok
  have huu : u' = u := by rw [htr'] at htr; exact Except.ok.inj htr
  subst huu
  have hmap := cleanTransform_rows hi htr'
  have hmaplen : u'.rows.length = t.rows.length := by rw [hmap, List.length_map]
  have hdlen := dedupFirst_length u'.rows
  refine ⟨hrows, ?_, ?_, ?_, ?_, hmaplen, ?_, ?_⟩
  · rw [hrows]; exact dedupFirst_sublist u'.rows
  · rw [hrows]; exact dedupFirst_nodup u'.rows
  · intro r; rw [hrows]; exact mem_dedupFirst u'.rows r
  · rw [hrows]; exact hdlen
  · intro h1
    rw [hrows]
    omega
  · intro hnod
    have hnd : ¬ u'.rows.Nodup := by
      intro hnd
      rw [hmap] at hnd
      exact hnod (List.Nodup.of_map _ hnd)
    have hcd : countDups u'.rows ≠ 0 := fun h0 => hnd ((countDups_eq_zero_iff u'.rows).mp h0)
    rw [hrows]
    omega

/-- C10 witness: the count law and the minus-one case evaluated on a
table with one exact duplicate row. -/
theorem clean_dedup_first_witness :
    ({ cols := ["id", "c"], rows := [[Value.int 1, Value.int 1]] } : Table).rows.length
        + countDups ({ cols := ["id", "c"], rows := [[Value.int 1, Value.int 1], [Value.int 1, Value.int 1]] } : Table).rows
      = ({ cols := ["id", "c"], rows := [[Value.int 1, Value.int 1], [Value.int 1, Value.int 1]] } : Table).rows.length
    ∧ (countDups ({ cols := ["id", "c"], rows := [[Value.int 1, Value.int 1], [Value.int 1, Value.int 1]] } : Table).rows = 1 →
        ({ cols := ["id", "c"], rows := [[Value.int 1, Value.int 1]] } : Table).rows.length
          = ({ cols := ["id", "categories"], rows := [[Value.int 1, Value.str "c-1"], [Value.int 1, Value.str "c-1"]] } : Table).rows.length - 1) :=
  ⟨(clean_dedup_first
      { cols := ["id", "categories"], rows := [[Value.int 1, Value.str "c-1"], [Value.int 1, Value.str "c-1"]] }
      { cols := ["id"], rows := [[Value.int 1], [Value.int 1]] }
      { cols := ["id", "c"], rows := [[Value.int 1, Value.int 1]] }
      { cols := ["id", "c"], rows := [[Value.int 1, Value.int 1], [Value.int 1, Value.int 1]] }
      1 (by decide) (by decide) (by decide)).2.2.2.2.1,
   (clean_dedup_first
      { cols := ["id", "categories"], rows := [[Value.int 1, Value.str "c-1"], [Value.int 1, Value.str "c-1"]] }
      { cols := ["id"], rows := [[Value.int 1], [Value.int 1]] }
      { cols := ["id", "c"], rows := [[Value.int 1, Value.int 1]] }
      { cols := ["id", "c"], rows := [[Value.int 1, Value.int 1], [Value.int 1, Value.int 1]] }
      1 (by decide) (by decide) (by decide)).2.2.2.2.2.2.1⟩

/-! ### Claim C5: the value step -/

/-- C5 counterexample: for the value `"c-1-x"` the part after the first
`-` is `"1-x"` (after the last, `"x"`); neither parses as an integer,
so the claim requires a parse failure — yet clean succeeds and stores
the integer 1, because the code takes `split('-')[1]`, the piece
between the first and second dash, not the suffix. -/
theorem clean_value_parse_cex :
    (clean_data { cols := ["id", "categories"], rows := [[Value.int 1, Value.str "c-1-x"]] }).2
      = Except.ok { cols := ["id", "c"], rows := [[Value.int 1, Value.int 1]] }
    ∧ parseInt "1-x" = none
    ∧ parseInt "x" = none
    ∧ (splitStr '-' "c-1-x")[1]? = some "1"
    ∧ parseInt "1" = some 1 := by
  refine ⟨by decide, by decide, by decide, by decide, by decide⟩

/-- C5 (amended): for every sub-column value in every row, clean splits
the value on `-` and stores the integer conversion of the **second**
`-`-separated piece (`split('-')[1]`, the piece between the first and
second dash — not the whole suffix).  On a non-empty input whose rows
all carry string `categories` cells with the same segment count, clean
succeeds exactly when every segment has a second `-`-piece and that
piece is integer-parsable; on success the stored integers are exactly
those conversions (`rowTrans`/`segIntFn`). -/
theorem clean_value_parse (t : Table) (i n : Nat)
    (hi : colIndex t "categories" = some i)
    (hne : t.rows ≠ [])
    (hstr : ∀ r ∈ t.rows, ∃ s, r[i]? = some (Value.str s) ∧ (splitStr ';' s).length = n) :
    ((∃ st out, clean_data t = (st, Except.ok out)) ↔
      (∀ r ∈ t.rows, ∀ s, r[i]? = some (Value.str s) → ∀ seg ∈ splitStr ';' s, goodSeg seg))
    ∧ (∀ u, cleanTransform t = Except.ok u → u.rows = t.rows.map (rowTrans i)) := by
  refine ⟨⟨?_, ?_⟩, fun u htr => cleanTransform_rows hi htr⟩
  · rintro ⟨st, out, hok⟩ r hr s hcell seg hseg
    obtain ⟨u, htr, _, _, _, _⟩ := clean_data_ok_destruct hok
    obtain ⟨segs, row0, names, strRows, intRows, hsegs, _, _, hstrm, hintm, _, _⟩ :=
      cleanTransform_ok_destruct hi htr
    obtain ⟨j, hj⟩ := List.mem_iff_getElem?.mp hr
    obtain ⟨sg, hsc, hsegj⟩ := mapExcept_get hsegs j r hj
    have hsg : sg = splitStr ';' s := by
      simp only [segCell, hcell, Except.ok.injEq] at hsc
      exact hsc.symm
    have hpadj : (segs.map (padTo (maxLen segs)))[j]? = some (padTo (maxLen segs) sg) := by
      rw [List.getElem?_map, hsegj]
      rfl
    obtain ⟨srj, hsrj, hsrjidx⟩ := mapExcept_get hstrm j _ hpadj
    have hsrj' : mapExcept splitCell (sg.map some) = Except.ok srj :=
      mapExcept_padTo_strip rfl hsrj
    have hsegmem : seg ∈ sg := by rw [hsg]; exact hseg
    obtain ⟨m, hm⟩ := List.mem_iff_getElem?.mp hsegmem
    have hsomem : (sg.map some)[m]? = some (some seg) := by
      rw [List.getElem?_map, hm]
      rfl
    obtain ⟨p, hp, hpm⟩ := mapExcept_get hsrj' m (some seg) hsomem
    have hidx : (splitStr '-' seg)[1]? = some p := by
      cases hidx0 : (splitStr '-' seg)[1]? with
      | none => simp only [splitCell, hidx0] at hp; cases hp
      | some q =>
          simp only [splitCell, hidx0, Except.ok.injEq] at hp
          rw [hp]
    obtain ⟨irj, hirj, _⟩ := mapExcept_get hintm j srj hsrjidx
    obtain ⟨nn, hnn⟩ := mapExcept_mem_ok hirj p (List.getElem?_mem hpm)
    have hparse : (parseInt p).isSome := by
      cases hps : parseInt p with
      | none => simp only [intCell, hps] at hnn; cases hnn
      | some k => rfl
    exact ⟨p, hidx, hparse⟩
  · intro hgood
    have hsegok : ∀ r ∈ t.rows, ∃ sg, segCell i r = Except.ok sg := by
      intro r hr
      obtain ⟨s, hcell, _⟩ := hstr r hr
      exact ⟨splitStr ';' s, by simp [segCell, hcell]⟩
    obtain ⟨segs, hsegs⟩ := mapExcept_ok_of_forall hsegok
    have hseglen : ∀ sg ∈ segs, sg.length = n := by
      intro sg hsgmem
      obtain ⟨r, hr, hsc⟩ := mapExcept_mem_rev hsegs sg hsgmem
      obtain ⟨s, hcell, hlen⟩ := hstr r hr
      have hsg : sg = splitStr ';' s := by
        simp only [segCell, hcell, Except.ok.injEq] at hsc
        exact hsc.symm
      rw [hsg]
      exact hlen
    have hsegsne : segs ≠ [] := by
      intro h0
      have hlen := mapExcept_length hsegs
      rw [h0] at hlen
      exact hne (List.length_eq_zero.mp hlen.symm)
    have hmax : maxLen segs = n := maxLen_const hseglen hsegsne
    have hpad : ∀ sg ∈ segs, padTo (maxLen segs) sg = sg.map some := by
      intro sg hsgm
      rw [hmax]
      exact padTo_exact (hseglen sg hsgm)
    have hgoodsg : ∀ sg ∈ segs, ∀ seg ∈ sg, goodSeg seg := by
      intro sg hsgm seg hsegm
      obtain ⟨r, hr, hsc⟩ := mapExcept_mem_rev hsegs sg hsgm
      obtain ⟨s, hcell, _⟩ := hstr r hr
      have hsg : sg = splitStr ';' s := by
        simp only [segCell, hcell, Except.ok.injEq] at hsc
        exact hsc.symm
      exact hgood r hr s hcell seg (hsg ▸ hsegm)
    have hstrok : ∀ x ∈ segs.map (padTo (maxLen segs)),
        ∃ sr, mapExcept splitCell x = Except.ok sr := by
      intro x hx
      obtain ⟨sg, hsgm, rfl⟩ := List.mem_map.mp hx
      rw [hpad sg hsgm]
      refine mapExcept_ok_of_forall ?_
      intro o ho
      obtain ⟨seg, hsegm, rfl⟩ := List.mem_map.mp ho
      obtain ⟨p, hp1, _⟩ := hgoodsg sg hsgm seg hsegm
      exact ⟨p, by simp [splitCell, hp1]⟩
    obtain ⟨strRows, hstrm⟩ := mapExcept_ok_of_forall hstrok
    have hintok : ∀ sr ∈ strRows, ∃ ir, mapExcept intCell sr = Except.ok ir := by
      intro sr hsrm
      obtain ⟨x, hx, hsr⟩ := mapExcept_mem_rev hstrm sr hsrm
      obtain ⟨sg, hsgm, rfl⟩ := List.mem_map.mp hx
      rw [hpad sg hsgm] at hsr
      refine mapExcept_ok_of_forall ?_
      intro p hpmem
      obtain ⟨o, ho, hpo⟩ := mapExcept_mem_rev hsr p hpmem
      obtain ⟨seg, hsegm, rfl⟩ := List.mem_map.mp ho
      obtain ⟨q, hq1, hq2⟩ := hgoodsg sg hsgm seg hsegm
      have hpq : q = p := by
        simp only [splitCell, hq1, Except.ok.injEq] at hpo
        exact hpo
      subst hpq
      cases hps : parseInt q with
      | none => rw [hps] at hq2; simp at hq2
      | some k => exact ⟨k, by simp [intCell, hps]⟩
    obtain ⟨intRows, hintm⟩ := mapExcept_ok_of_forall hintok
    cases hh : (segs.map (padTo (maxLen segs))).head? with
    | none =>
        exact absurd (List.map_eq_nil_iff.mp (List.head?_eq_none_iff.mp hh)) hsegsne
    | some row0 =>
        have hrow0pad : ∃ sg0 ∈ segs, row0 = padTo (maxLen segs) sg0 := by
          rw [List.head?_map] at hh
          cases hsg0 : segs.head? with
          | none => rw [hsg0] at hh; cases hh
          | some sg0 =>
              rw [hsg0, Option.map_some'] at hh
              refine ⟨sg0, ?_, (Option.some.inj hh).symm⟩
              rw [List.head?_eq_getElem?] at hsg0
              exact List.getElem?_mem hsg0
        obtain ⟨sg0, hsg0m, hrow0⟩ := hrow0pad
        have hnames : mapExcept nameOfCell row0
            = Except.ok (sg0.map (fun s => (splitStr '-' s).headD "")) := by
          rw [hrow0, hpad sg0 hsg0m]
          exact mapExcept_map_some nameOfCell (fun s => (splitStr '-' s).headD "")
            (fun a => rfl) sg0
        have htrok : cleanTransform t = Except.ok
            { cols := t.cols.eraseIdx i ++ sg0.map (fun s => (splitStr '-' s).headD ""),
              rows := List.zipWith (fun r ir => r.eraseIdx i ++ ir.map Value.int)
                t.rows intRows } := by
          simp only [cleanTransform, segLists, hi, hsegs, hh, hnames, hstrm, hintm]
        have hlens : (List.zipWith (fun r ir => r.eraseIdx i ++ ir.map Value.int)
            t.rows intRows).length = t.rows.length := by
          rw [List.length_zipWith]
          have h1 := mapExcept_length hintm
          have h2 := mapExcept_length hstrm
          have h3 := mapExcept_length hsegs
          rw [List.length_map] at h2
          omega
        have hznz : ¬ (List.zipWith (fun r ir => r.eraseIdx i ++ ir.map Value.int)
            t.rows intRows).length = 0 := by
          rw [hlens]
          intro h0
          exact hne (List.length_eq_zero.mp h0)
        refine ⟨dropCategories t,
          { cols := t.cols.eraseIdx i ++ sg0.map (fun s => (splitStr '-' s).headD ""),
            rows := dedupFirst (List.zipWith (fun r ir => r.eraseIdx i ++ ir.map Value.int)
              t.rows intRows) }, ?_⟩
        simp only [clean_data, htrok]
        rw [if_neg hznz]

/-- C5 witness: the success criterion instantiated on a one-row table
whose two category segments both carry parsable second pieces. -/
theorem clean_value_parse_witness :
    ∃ st out, clean_data { cols := ["id", "categories"], rows := [[Value.int 1, Value.str "a-1;b-2"]] }
      = (st, Except.ok out) :=
  (clean_value_parse { cols := ["id", "categories"], rows := [[Value.int 1, Value.str "a-1;b-2"]] }
    1 2 (by decide) (by decide)
    (by
      intro r hr
      rw [List.mem_singleton] at hr
      subst hr
      exact ⟨"a-1;b-2", rfl, by decide⟩)).1.mpr
    (by
      intro r hr s hs seg hseg
      rw [List.mem_singleton] at hr
      subst hr
      have hseq : Value.str "a-1;b-2" = Value.str s := Option.some.inj hs
      cases hseq
      have hsegs : splitStr ';' "a-1;b-2" = ["a-1", "b-2"] := by decide
      rw [hsegs] at hseg
      rcases List.mem_cons.mp hseg with rfl | hseg'
      · exact ⟨"1", by decide, by decide⟩
      · rw [List.mem_singleton] at hseg'
        subst hseg'
        exact ⟨"2", by decide, by decide⟩)
